import Mathlib

/-!
Verification development for a minimal ray-tracer kernel (Rust sources:
`math.rs`, `graphics.rs`, `image.rs`, `geometry.rs`, `shading.rs`).

Modelling conventions.
`f64` values are embedded as exact numbers: rationals (`ℚ`) for the
components that perform only ring operations, comparisons and floor
(float equality, the image encoder), and reals (`ℝ`) for the geometric
pipeline, where `sqrt` and `powf` occur.  Where a claim is specifically
about IEEE NaN/infinity behaviour (`normalize` on the zero vector, the
panicking comparator in the intersection sort), a dedicated scalar type
`FR` with explicit `nan`/`±inf` constructors is used.  A few operations
of the repository are referenced by the sources but their definitions are
not among the provided files (`Matrix4x4f::inverse`, the matrix x tuple
products for `Point3f`/`Vector3f`, `Vector3f::reflect`, `Color::BLACK`);
those are modelled from the spec and carry a doc comment saying so.
-/

namespace RayTracer

/-! ## math.rs: float equality (over ℚ) -/

/-- `std::f64::EPSILON` is exactly `2^(-52)`. -/
def EPSILON : ℚ := 1 / 2 ^ 52

/-- `FloatEq for f64`: `(self - other).abs() < std::f64::EPSILON`. -/
def float_eq (a b : ℚ) : Bool := |a - b| < EPSILON

/-! ## image.rs: channel conversion (over ℚ) -/

/-- `to_int` from `canvas_to_ppm`; the Rust `as i32` cast truncates toward
zero, which on the guarded branch (`0 ≤ v ≤ 1`, so `v * 255 ≥ 0`) equals
the floor. -/
def to_int (v : ℚ) : ℤ :=
  if v < 0 then 0
  else if v > 1 then 255
  else ⌊v * 255⌋

/-! ## graphics.rs: Color and Canvas

`Color` is generic in the scalar so that the exact-rational image claims
and the real-valued shading claims share one definition. -/

structure Color (α : Type) where
  r : α
  g : α
  b : α
deriving DecidableEq

/-- `Add for Color` (component-wise). -/
def Color.add {α : Type} [Add α] (c d : Color α) : Color α :=
  ⟨c.r + d.r, c.g + d.g, c.b + d.b⟩

/-- `Mul<f64> for Color` (scale every component). -/
def Color.smul {α : Type} [Mul α] (c : Color α) (k : α) : Color α :=
  ⟨c.r * k, c.g * k, c.b * k⟩

/-- `Mul for Color`: Hadamard / Schur product. -/
def Color.hadamard {α : Type} [Mul α] (c d : Color α) : Color α :=
  ⟨c.r * d.r, c.g * d.g, c.b * d.b⟩

/-- `Canvas`: `px: Vec<Vec<Color>>`, row-major (outer index `y`). -/
structure Canvas where
  px : List (List (Color ℚ))

/-- `Canvas::new(w, h)`: `h` rows of `w` black pixels. -/
def Canvas.new (w h : ℕ) : Canvas :=
  ⟨List.replicate h (List.replicate w ⟨0, 0, 0⟩)⟩

/-- `Canvas::w()`: `0` when there are no rows, else the length of row 0. -/
def Canvas.w (c : Canvas) : ℕ :=
  if c.px.isEmpty then 0 else (c.px.headI).length

/-- `Canvas::h()`. -/
def Canvas.h (c : Canvas) : ℕ := c.px.length

/-- `Canvas::px(x, y)` (bounds-checked in Rust; the default `⟨0,0,0⟩` is
never reached for in-range coordinates). -/
def Canvas.pxAt (c : Canvas) (x y : ℕ) : Color ℚ :=
  (c.px.getD y []).getD x ⟨0, 0, 0⟩

/-! ## image.rs: canvas_to_ppm -/

/-- The flat integer triples of row `y`:
`(0..w).flat_map(|x| [to_int(r), to_int(g), to_int(b)])`. -/
def rowInts (c : Canvas) (y : ℕ) : List ℤ :=
  (List.range c.w).flatMap fun x =>
    [to_int (c.pxAt x y).r, to_int (c.pxAt x y).g, to_int (c.pxAt x y).b]

/-- One step of the greedy 70-column wrapping loop: state is
`(current, output)`. -/
def wrapStep (st : String × List String) (v : ℤ) : String × List String :=
  if st.1 = "" then (st.1 ++ Int.repr v, st.2)
  else
    let vstr := " " ++ Int.repr v
    if st.1.length + vstr.length ≤ 70 then (st.1 ++ vstr, st.2)
    else (Int.repr v, st.2 ++ [st.1])

/-- The wrapped lines produced for one row of integer triples; the final
non-empty `current` is pushed after the loop. -/
def wrapRow (vals : List ℤ) : List String :=
  let st := vals.foldl wrapStep ("", [])
  if st.1 = "" then st.2 else st.2 ++ [st.1]

/-- All the lines of the PPM output: the 3-line header, the wrapped pixel
data of each row, and a final empty string (so that the join ends with a
newline). -/
def ppmLines (c : Canvas) : List String :=
  ["P3", Nat.repr c.w ++ " " ++ Nat.repr c.h, "255"]
    ++ ((List.range c.h).flatMap fun y => wrapRow (rowInts c y))
    ++ [""]

/-- `Vec::join("\n")`. -/
def joinLines : List String → String
  | [] => ""
  | [s] => s
  | s :: rest => s ++ "\n" ++ joinLines rest

/-- `canvas_to_ppm`. -/
def canvas_to_ppm (c : Canvas) : String := joinLines (ppmLines c)

/-! ## math.rs: homogeneous tuples (over ℝ) -/

/-- `Vector4f`: `vals: [f64; 4]`, here named components `(x, y, z, w)`. -/
structure Vector4f where
  x : ℝ
  y : ℝ
  z : ℝ
  w : ℝ

/-- `Add for Vector4f`. -/
def Vector4f.add (a b : Vector4f) : Vector4f :=
  ⟨a.x + b.x, a.y + b.y, a.z + b.z, a.w + b.w⟩

/-- `Sub for Vector4f`. -/
def Vector4f.sub (a b : Vector4f) : Vector4f :=
  ⟨a.x - b.x, a.y - b.y, a.z - b.z, a.w - b.w⟩

/-- `Neg for Vector4f`. -/
def Vector4f.neg (a : Vector4f) : Vector4f :=
  ⟨-a.x, -a.y, -a.z, -a.w⟩

/-- `Mul<f64> for Vector4f`. -/
def Vector4f.smul (a : Vector4f) (k : ℝ) : Vector4f :=
  ⟨a.x * k, a.y * k, a.z * k, a.w * k⟩

/-- `Vector4f::dot`: sum of the four component products. -/
def Vector4f.dot (a b : Vector4f) : ℝ :=
  a.x * b.x + a.y * b.y + a.z * b.z + a.w * b.w

/-- `Vector4f::magnitude`: `vals.iter().map(|a| a*a).sum().sqrt()`. -/
noncomputable def Vector4f.magnitude (a : Vector4f) : ℝ :=
  Real.sqrt (a.x * a.x + a.y * a.y + a.z * a.z + a.w * a.w)

/-- `Vector4f::normalize`: each component divided by the magnitude
(no guard against a zero magnitude). -/
noncomputable def Vector4f.normalize (a : Vector4f) : Vector4f :=
  ⟨a.x / a.magnitude, a.y / a.magnitude, a.z / a.magnitude, a.w / a.magnitude⟩

/-- `Point3f`: a `Vector4f` whose `w` is `1` (enforced by its constructor). -/
structure Point3f where
  v : Vector4f

/-- `Point3f::new(x, y, z)`: the homogeneous tuple `(x, y, z, 1)`. -/
def Point3f.new (x y z : ℝ) : Point3f := ⟨⟨x, y, z, 1⟩⟩

/-- `Vector3f`: a `Vector4f` whose `w` is `0` (enforced by its constructor). -/
structure Vector3f where
  v : Vector4f

/-- `Vector3f::new(x, y, z)`: the homogeneous tuple `(x, y, z, 0)`. -/
def Vector3f.new (x y z : ℝ) : Vector3f := ⟨⟨x, y, z, 0⟩⟩

/-- `Sub<Point3f> for Point3f`: point minus point is a vector. -/
def Point3f.sub (a b : Point3f) : Vector3f := ⟨a.v.sub b.v⟩

/-- `Vector3f::dot`. -/
def Vector3f.dot (a b : Vector3f) : ℝ := a.v.dot b.v

/-- `Neg for Vector3f`. -/
def Vector3f.neg (a : Vector3f) : Vector3f := ⟨a.v.neg⟩

/-- `Vector3f::normalize`. -/
noncomputable def Vector3f.normalize (a : Vector3f) : Vector3f := ⟨a.v.normalize⟩

/-- Modelled from the spec: `Vector3f::reflect` is used by `lighting` but
its definition is not among the provided sources.  Spec §4.4 step 6:
`reflect(v, n) = v − 2(v·n)n`. -/
def Vector3f.reflect (v n : Vector3f) : Vector3f :=
  ⟨v.v.sub (n.v.smul (2 * v.dot n))⟩

/-! ## math.rs: matrices (over ℝ)

The Rust code has one const-generic `BaseMatrix<N, O>` instantiated at
orders 2, 3 and 4; here the three instantiations are three structures
sharing the same formulas.  `vals` is the flat row-major array. -/

structure Matrix2x2f where
  vals : List ℝ

structure Matrix3x3f where
  vals : List ℝ

structure Matrix4x4f where
  vals : List ℝ

/-- `BaseMatrix::get(r, c) = vals[r * ORDER + c]` (order 2). -/
def Matrix2x2f.get (m : Matrix2x2f) (r c : ℕ) : ℝ := m.vals.getD (r * 2 + c) 0

/-- `BaseMatrix::get(r, c) = vals[r * ORDER + c]` (order 3). -/
def Matrix3x3f.get (m : Matrix3x3f) (r c : ℕ) : ℝ := m.vals.getD (r * 3 + c) 0

/-- `BaseMatrix::get(r, c) = vals[r * ORDER + c]` (order 4). -/
def Matrix4x4f.get (m : Matrix4x4f) (r c : ℕ) : ℝ := m.vals.getD (r * 4 + c) 0

/-- `BaseMatrix::submatrix_vals`: keep the rows and columns different from
the removed ones, in order (order 3 → flat order-2 values). -/
def Matrix3x3f.submatrixVals (m : Matrix3x3f) (rr rc : ℕ) : List ℝ :=
  ((List.range 3).filter fun r => r ≠ rr).flatMap fun r =>
    ((List.range 3).filter fun c => c ≠ rc).map fun c => m.get r c

/-- `BaseMatrix::submatrix_vals` (order 4 → flat order-3 values). -/
def Matrix4x4f.submatrixVals (m : Matrix4x4f) (rr rc : ℕ) : List ℝ :=
  ((List.range 4).filter fun r => r ≠ rr).flatMap fun r =>
    ((List.range 4).filter fun c => c ≠ rc).map fun c => m.get r c

/-- `BaseMatrix::submatrix_vals` (order 2 → the single remaining value). -/
def Matrix2x2f.submatrixVals (m : Matrix2x2f) (rr rc : ℕ) : List ℝ :=
  ((List.range 2).filter fun r => r ≠ rr).flatMap fun r =>
    ((List.range 2).filter fun c => c ≠ rc).map fun c => m.get r c

/-- `Submatrix for Matrix2x2f`: `Output = f64`, `submatrix_vals(..)[0]`. -/
def Matrix2x2f.submatrix (m : Matrix2x2f) (rr rc : ℕ) : ℝ :=
  (m.submatrixVals rr rc).getD 0 0

/-- `Submatrix for Matrix3x3f`. -/
def Matrix3x3f.submatrix (m : Matrix3x3f) (rr rc : ℕ) : Matrix2x2f :=
  ⟨m.submatrixVals rr rc⟩

/-- `Submatrix for Matrix4x4f`. -/
def Matrix4x4f.submatrix (m : Matrix4x4f) (rr rc : ℕ) : Matrix3x3f :=
  ⟨m.submatrixVals rr rc⟩

/-- `Determinant for f64`: the order-1 base case returns the scalar. -/
def detScalar (x : ℝ) : ℝ := x

/-- The cofactor sign `if (i + j) % 2 == 0 { 1.0 } else { -1.0 }`. -/
def cofactorSign (i j : ℕ) : ℝ := if (i + j) % 2 = 0 then 1 else -1

/-- `minor(i, j) = determinant(submatrix(i, j))` (order 2). -/
def Matrix2x2f.minor (m : Matrix2x2f) (i j : ℕ) : ℝ := detScalar (m.submatrix i j)

/-- `cofactor(i, j) = minor(i, j) * sign` (order 2). -/
def Matrix2x2f.cofactor (m : Matrix2x2f) (i j : ℕ) : ℝ := m.minor i j * cofactorSign i j

/-- `determinant`: expansion along row 0 (order 2). -/
def Matrix2x2f.determinant (m : Matrix2x2f) : ℝ :=
  ((List.range 2).map fun c => m.get 0 c * m.cofactor 0 c).sum

/-- `minor(i, j) = determinant(submatrix(i, j))` (order 3). -/
def Matrix3x3f.minor (m : Matrix3x3f) (i j : ℕ) : ℝ := (m.submatrix i j).determinant

/-- `cofactor(i, j) = minor(i, j) * sign` (order 3). -/
def Matrix3x3f.cofactor (m : Matrix3x3f) (i j : ℕ) : ℝ := m.minor i j * cofactorSign i j

/-- `determinant`: expansion along row 0 (order 3). -/
def Matrix3x3f.determinant (m : Matrix3x3f) : ℝ :=
  ((List.range 3).map fun c => m.get 0 c * m.cofactor 0 c).sum

/-- `minor(i, j) = determinant(submatrix(i, j))` (order 4). -/
def Matrix4x4f.minor (m : Matrix4x4f) (i j : ℕ) : ℝ := (m.submatrix i j).determinant

/-- `cofactor(i, j) = minor(i, j) * sign` (order 4). -/
def Matrix4x4f.cofactor (m : Matrix4x4f) (i j : ℕ) : ℝ := m.minor i j * cofactorSign i j

/-- `determinant`: expansion along row 0 (order 4). -/
def Matrix4x4f.determinant (m : Matrix4x4f) : ℝ :=
  ((List.range 4).map fun c => m.get 0 c * m.cofactor 0 c).sum

/-- `BaseMatrix::identity` (order 4): row-major flat list with `1.0` on the
diagonal. -/
def Matrix4x4f.identity : Matrix4x4f :=
  ⟨(List.range 4).flatMap fun r => (List.range 4).map fun c =>
    if r = c then (1 : ℝ) else 0⟩

/-- `Mul<Vector4f> for Matrix4x4f`: `(0..4).map(|r| Σ_i get(r,i)*v[i])`,
with the fixed-bound inner loop unrolled. -/
def Matrix4x4f.mulVec4 (m : Matrix4x4f) (v : Vector4f) : Vector4f :=
  ⟨m.get 0 0 * v.x + m.get 0 1 * v.y + m.get 0 2 * v.z + m.get 0 3 * v.w,
   m.get 1 0 * v.x + m.get 1 1 * v.y + m.get 1 2 * v.z + m.get 1 3 * v.w,
   m.get 2 0 * v.x + m.get 2 1 * v.y + m.get 2 2 * v.z + m.get 2 3 * v.w,
   m.get 3 0 * v.x + m.get 3 1 * v.y + m.get 3 2 * v.z + m.get 3 3 * v.w⟩

/-- Modelled from the spec: the `Matrix4x4f * Point3f` product used by
`Ray::transform` is not among the provided sources; §4.2's dedicated
order-4 matrix x tuple product applied to the homogeneous tuple. -/
def Matrix4x4f.mulPoint (m : Matrix4x4f) (p : Point3f) : Point3f :=
  ⟨m.mulVec4 p.v⟩

/-- Modelled from the spec: the `Matrix4x4f * Vector3f` product used by
`Ray::transform` is not among the provided sources; §4.2's dedicated
order-4 matrix x tuple product applied to the homogeneous tuple. -/
def Matrix4x4f.mulVec3 (m : Matrix4x4f) (v : Vector3f) : Vector3f :=
  ⟨m.mulVec4 v.v⟩

/-- Modelled from the spec: `Matrix4x4f::inverse` is called by
`Ray::intersect_sphere` and `Sphere::normal_at` but its definition is not
among the provided sources.  §4.2: `inverse = adjugate / determinant` with
`adjugate(i, j) = cofactor(j, i)`, undefined (`SingularMatrix`, here
`none`) when `|determinant|` is below tolerance; the tolerance is taken to
be the repository's documented float-equality constant
`f64::EPSILON = 2^(-52)`. -/
noncomputable def Matrix4x4f.inverse (m : Matrix4x4f) : Option Matrix4x4f :=
  let det := m.determinant
  if |det| < 1 / 2 ^ 52 then none
  else some ⟨(List.range 4).flatMap fun r => (List.range 4).map fun c =>
    m.cofactor c r / det⟩

/-! ## shading.rs: PointLight, Material, lighting (over ℝ) -/

/-- `PointLight`. -/
structure PointLight where
  position : Point3f
  intensity : Color ℝ

/-- `Material` (Phong shading material). -/
structure Material where
  color : Color ℝ
  ambient : ℝ
  diffuse : ℝ
  specular : ℝ
  shininess : ℝ

/-- `Material::default()`: white, 0.1 / 0.9 / 0.9 / 200. -/
noncomputable def Material.default : Material :=
  ⟨⟨1, 1, 1⟩, 1 / 10, 9 / 10, 9 / 10, 200⟩

/-- Modelled from the spec: `Color::BLACK` is used by `lighting` but its
definition is not among the provided sources; §4.4 steps 4 and 7 call it
"black", the zero color. -/
def Color.BLACK : Color ℝ := ⟨0, 0, 0⟩

/-- `LightingArgs`. -/
structure LightingArgs where
  material : Material
  light : PointLight
  point : Point3f
  eyev : Vector3f
  normalv : Vector3f

/-- `lighting`: ambient + diffuse + specular, with diffuse and specular
black when `light_dot_normal < 0`, and specular additionally black when
`reflect_dot_eye <= 0`; `powf` is the real power `Real.rpow`. -/
noncomputable def lighting (args : LightingArgs) : Color ℝ :=
  let effective_color := args.material.color.hadamard args.light.intensity
  let lightv := (args.light.position.sub args.point).normalize
  let ambient := effective_color.smul args.material.ambient
  let light_dot_normal := lightv.dot args.normalv
  let ds : Color ℝ × Color ℝ :=
    if light_dot_normal < 0 then (Color.BLACK, Color.BLACK)
    else
      let diffuse := (effective_color.smul args.material.diffuse).smul light_dot_normal
      let reflectv := (lightv.neg).reflect args.normalv
      let reflect_dot_eye := reflectv.dot args.eyev
      let specular :=
        if reflect_dot_eye ≤ 0 then Color.BLACK
        else
          let factor := reflect_dot_eye ^ args.material.shininess
          (args.light.intensity.smul args.material.specular).smul factor
      (diffuse, specular)
  (ambient.add ds.1).add ds.2

/-! ## geometry.rs: Ray, Sphere, Intersections (over ℝ) -/

/-- `Ray`. -/
structure Ray where
  origin : Point3f
  direction : Vector3f

/-- `Ray::transform`: apply the matrix to origin and direction. -/
def Ray.transform (r : Ray) (m : Matrix4x4f) : Ray :=
  ⟨m.mulPoint r.origin, m.mulVec3 r.direction⟩

/-- `Sphere`: unit sphere at the local origin holding a transform and a
material. -/
structure Sphere where
  transform : Matrix4x4f
  material : Material

/-- `Default for Sphere`: identity transform, default material. -/
noncomputable def Sphere.default : Sphere :=
  ⟨Matrix4x4f.identity, Material.default⟩

/-- `Intersection`: a `t` value and the object that produced it (the Rust
code stores a borrow of the sphere; here the sphere value itself). -/
structure Intersection where
  t : ℝ
  object : Sphere

/-- `sort_intersections`: stable sort ascending by `t` (the Rust
`sort_by` with `partial_cmp(..).unwrap()`; on the real-valued model every
comparison succeeds, and the NaN-induced panic is modelled separately with
the `FR` scalar below). -/
noncomputable def sort_intersections (l : List Intersection) : List Intersection :=
  List.insertionSort (fun a b => a.t ≤ b.t) l

/-- `Intersections::new`: re-sort ascending by `t`. -/
noncomputable def Intersections.new (l : List Intersection) : List Intersection :=
  sort_intersections l

/-- `Intersections::new_empty`. -/
def Intersections.new_empty : List Intersection := []

/-- `Intersections::hit()`: first entry of the (sorted) collection with
`t >= 0`. -/
noncomputable def Intersections.hit (xs : List Intersection) : Option Intersection :=
  xs.find? fun x => decide (x.t ≥ 0)

/-- `Ray::intersect_sphere`.  The Rust code unwraps
`sphere.transform.inverse()`, a panic when the transform is singular;
that is modelled by the `Option`. -/
noncomputable def Ray.intersect_sphere (r : Ray) (s : Sphere) :
    Option (List Intersection) :=
  match s.transform.inverse with
  | none => none
  | some minv =>
    let transformed_ray := r.transform minv
    let sphere_to_ray := transformed_ray.origin.sub (Point3f.new 0 0 0)
    let a := transformed_ray.direction.dot transformed_ray.direction
    let b := 2 * transformed_ray.direction.dot sphere_to_ray
    let c := sphere_to_ray.dot sphere_to_ray - 1
    let discriminant := b * b - 4 * a * c
    if discriminant < 0 then some Intersections.new_empty
    else
      some (Intersections.new
        [⟨(-b - Real.sqrt discriminant) / (2 * a), s⟩,
         ⟨(-b + Real.sqrt discriminant) / (2 * a), s⟩])

/-! ## An IEEE-flavoured f64 scalar

`FR` refines the real-valued model with the `f64` special values that
two claims are about: NaN (from `0.0 / 0.0` in `normalize`, and the value
on which `partial_cmp` returns `None`) and the infinities.  Finite values
stay exact reals; signed zeros are not distinguished (no claim depends on
them). -/

inductive FR where
  | fin (val : ℝ)
  | nan
  | pinf
  | ninf

/-- Whether an `FR` value is NaN. -/
def FR.isNan : FR → Bool
  | .nan => true
  | _ => false

/-- IEEE multiplication on `FR`: NaN propagates, `0 * ±inf = NaN`. -/
noncomputable def FR.mul : FR → FR → FR
  | .nan, _ => .nan
  | _, .nan => .nan
  | .fin a, .fin b => .fin (a * b)
  | .fin a, .pinf => if a = 0 then .nan else if 0 < a then .pinf else .ninf
  | .fin a, .ninf => if a = 0 then .nan else if 0 < a then .ninf else .pinf
  | .pinf, .fin b => if b = 0 then .nan else if 0 < b then .pinf else .ninf
  | .ninf, .fin b => if b = 0 then .nan else if 0 < b then .ninf else .pinf
  | .pinf, .pinf => .pinf
  | .pinf, .ninf => .ninf
  | .ninf, .pinf => .ninf
  | .ninf, .ninf => .pinf

/-- IEEE addition on `FR`: NaN propagates, `+inf + -inf = NaN`. -/
noncomputable def FR.add : FR → FR → FR
  | .nan, _ => .nan
  | _, .nan => .nan
  | .fin a, .fin b => .fin (a + b)
  | .fin _, .pinf => .pinf
  | .fin _, .ninf => .ninf
  | .pinf, .fin _ => .pinf
  | .ninf, .fin _ => .ninf
  | .pinf, .pinf => .pinf
  | .ninf, .ninf => .ninf
  | .pinf, .ninf => .nan
  | .ninf, .pinf => .nan

/-- IEEE division on `FR`: NaN propagates, `0/0 = NaN`, a nonzero finite
value over zero gives a signed infinity, finite over infinite gives zero,
infinite over infinite gives NaN. -/
noncomputable def FR.div : FR → FR → FR
  | .nan, _ => .nan
  | _, .nan => .nan
  | .fin a, .fin b =>
    if b = 0 then (if a = 0 then .nan else if 0 < a then .pinf else .ninf)
    else .fin (a / b)
  | .fin _, .pinf => .fin 0
  | .fin _, .ninf => .fin 0
  | .pinf, .fin b => if 0 ≤ b then .pinf else .ninf
  | .ninf, .fin b => if 0 ≤ b then .ninf else .pinf
  | .pinf, .pinf => .nan
  | .pinf, .ninf => .nan
  | .ninf, .pinf => .nan
  | .ninf, .ninf => .nan

/-- IEEE square root on `FR`: NaN on NaN and on negative inputs. -/
noncomputable def FR.sqrt : FR → FR
  | .nan => .nan
  | .pinf => .pinf
  | .ninf => .nan
  | .fin a => if a < 0 then .nan else .fin (Real.sqrt a)

/-- `f64::partial_cmp`: `None` exactly when either side is NaN. -/
noncomputable def FR.pcmp : FR → FR → Option Ordering
  | .nan, _ => none
  | _, .nan => none
  | .fin a, .fin b => some (if a < b then .lt else if b < a then .gt else .eq)
  | .fin _, .pinf => some .lt
  | .fin _, .ninf => some .gt
  | .pinf, .fin _ => some .gt
  | .ninf, .fin _ => some .lt
  | .pinf, .pinf => some .eq
  | .ninf, .ninf => some .eq
  | .pinf, .ninf => some .gt
  | .ninf, .pinf => some .lt

/-- `Vector4f` with IEEE-flavoured components, for the claims about NaN
behaviour. -/
structure Vector4F where
  x : FR
  y : FR
  z : FR
  w : FR

/-- `Vector4f::magnitude` on the IEEE-flavoured scalar. -/
noncomputable def Vector4F.magnitude (a : Vector4F) : FR :=
  FR.sqrt ((((a.x.mul a.x).add (a.y.mul a.y)).add (a.z.mul a.z)).add (a.w.mul a.w))

/-- `Vector4f::normalize` on the IEEE-flavoured scalar: each component
divided by the magnitude, with no guard. -/
noncomputable def Vector4F.normalize (a : Vector4F) : Vector4F :=
  ⟨a.x.div a.magnitude, a.y.div a.magnitude, a.z.div a.magnitude, a.w.div a.magnitude⟩

/-- An intersection whose `t` carries the IEEE-flavoured scalar. -/
structure IntersectionF where
  t : FR
  object : Sphere

/-- One ordered-insertion step of a comparison-based stable sort driven by
a fallible comparator; `none` models the `unwrap` panic inside the
`sort_by` closure.  The element is inserted before the first entry it does
not compare `Greater` to. -/
noncomputable def insertP {α : Type} (cmp : α → α → Option Ordering) (a : α) :
    List α → Option (List α)
  | [] => some [a]
  | b :: l =>
    (cmp a b).bind fun o =>
      if o = Ordering.gt then (insertP cmp a l).map fun u => b :: u
      else some (a :: b :: l)

/-- A comparison-based sort driven by a fallible comparator; `none` models
the panic.  A list of length below two performs no comparison at all,
matching Rust's `sort_by` early return. -/
noncomputable def sortP {α : Type} (cmp : α → α → Option Ordering) :
    List α → Option (List α)
  | [] => some []
  | a :: l => (sortP cmp l).bind (insertP cmp a)

/-- `sort_intersections` / `Intersections::new` on the IEEE-flavoured
scalar: sort by `a.t.partial_cmp(&b.t).unwrap()`, where `none` models the
panic of the `unwrap`. -/
noncomputable def IntersectionsF.new (l : List IntersectionF) :
    Option (List IntersectionF) :=
  sortP (fun a b => FR.pcmp a.t b.t) l

/-! ## Theorems -/

/-- `float_eq` unfolded to its comparison. -/
theorem float_eq_iff (a b : ℚ) : float_eq a b = true ↔ |a - b| < 1 / 2 ^ 52 := by
  simp [float_eq, EPSILON]

/-- Claim C6, counterexample: no tolerance constant in the range
1e-9 to 1e-5 describes `float_eq`; at `a = 0`, `b = 10^(-10)` the
difference is below any such constant yet `float_eq` is `false`. -/
theorem C6_float_eq_range_false :
    ¬ ∃ c : ℚ, 1 / 10 ^ 9 ≤ c ∧ c ≤ 1 / 10 ^ 5 ∧
      ∀ a b : ℚ, (float_eq a b = true ↔ |a - b| < c) := by
  rintro ⟨c, h1, _, h⟩
  have htrue : float_eq 0 (1 / 10 ^ 10) = true := by
    refine (h 0 (1 / 10 ^ 10)).mpr ?_
    have hv : |(0 : ℚ) - 1 / 10 ^ 10| = 1 / 10 ^ 10 := by norm_num
    rw [hv]
    calc (1 : ℚ) / 10 ^ 10 < 1 / 10 ^ 9 := by norm_num
    _ ≤ c := h1
  have hfalse : ¬ float_eq 0 (1 / 10 ^ 10) = true := by
    rw [float_eq_iff, abs_sub_comm, sub_zero, abs_of_nonneg (by norm_num)]
    norm_num
  exact hfalse htrue

/-- Claim C6, amended: scalar equality is epsilon-tolerant with the single
documented constant `f64::EPSILON = 2^(-52)` (which lies below, not
inside, the 1e-9 to 1e-5 range): `float_eq(a, b)` holds exactly when
`|a - b| < 2^(-52)`. -/
theorem C6_float_eq_epsilon :
    (∀ a b : ℚ, float_eq a b = true ↔ |a - b| < 1 / 2 ^ 52) ∧
    EPSILON = 1 / 2 ^ 52 ∧ (EPSILON : ℚ) < 1 / 10 ^ 9 := by
  refine ⟨float_eq_iff, rfl, ?_⟩
  rw [EPSILON]
  norm_num

/-- Claim C6, witness: the amended equivalence at concrete inputs. -/
theorem C6_float_eq_epsilon_witness :
    float_eq (1 / 10 ^ 10) (1 / 10 ^ 10) = true ∧ float_eq 0 (1 / 10 ^ 10) ≠ true :=
  ⟨(C6_float_eq_epsilon.1 _ _).mpr (by norm_num),
   fun h => by
    have hlt := (C6_float_eq_epsilon.1 _ _).mp h
    rw [abs_sub_comm, sub_zero, abs_of_nonneg (by norm_num)] at hlt
    norm_num at hlt⟩

/-- Claim C4, counterexample: the encoder truncates rather than rounds;
`v = 0.5` encodes as 127, not the claimed 128. -/
theorem C4_to_int_half : to_int (1 / 2) = 127 ∧ (127 : ℤ) ≠ 128 := by
  constructor
  · rw [to_int, if_neg (by norm_num), if_neg (by norm_num), Int.floor_eq_iff]
    constructor <;> norm_num
  · decide

/-- Claim C4, amended: each channel value `v` is clamped (`v < 0` to 0,
`v > 1` to 255) and otherwise converted by truncating `v * 255` toward
zero (the floor, on this nonnegative branch), so `v = 0.5` encodes as
127; the result always lies in `[0, 255]`. -/
theorem C4_to_int_clamp_floor (v : ℚ) :
    (v < 0 → to_int v = 0) ∧ (1 < v → to_int v = 255) ∧
    (0 ≤ v → v ≤ 1 → to_int v = ⌊v * 255⌋) ∧
    (0 ≤ to_int v ∧ to_int v ≤ 255) := by
  refine ⟨fun h => by rw [to_int, if_pos h],
          fun h => by rw [to_int, if_neg (by linarith), if_pos h],
          fun h0 h1 => by rw [to_int, if_neg (not_lt.mpr h0), if_neg (not_lt.mpr h1)],
          ?_⟩
  rw [to_int]
  split_ifs with h0 h1
  · exact ⟨le_refl 0, by norm_num⟩
  · exact ⟨by norm_num, le_refl 255⟩
  · constructor
    · exact Int.floor_nonneg.mpr (by nlinarith [not_lt.mp h0])
    · calc ⌊v * 255⌋ ≤ ⌊(255 : ℚ)⌋ := Int.floor_le_floor (by nlinarith [not_lt.mp h1])
      _ = 255 := by norm_num

/-- Claim C4, witness: the amended conversion evaluated at `v = 1/2`. -/
theorem C4_to_int_clamp_floor_witness :
    to_int (1 / 2) = ⌊(1 / 2 : ℚ) * 255⌋ ∧ 0 ≤ to_int (1 / 2) ∧ to_int (1 / 2) ≤ 255 :=
  ⟨(C4_to_int_clamp_floor (1 / 2)).2.2.1 (by norm_num) (by norm_num),
   (C4_to_int_clamp_floor (1 / 2)).2.2.2⟩

/-- The cofactor sign equals `(-1)^(i+j)`. -/
theorem cofactorSign_eq (i j : ℕ) : cofactorSign i j = (-1 : ℝ) ^ (i + j) := by
  rw [cofactorSign]
  rcases Nat.even_or_odd (i + j) with h | h
  · rw [if_pos (Nat.even_iff.mp h), h.neg_one_pow]
  · rw [if_neg (by rw [Nat.odd_iff.mp h]; norm_num), h.neg_one_pow]

/-- Claim C5: for orders 2, 3 and 4 the determinant is the cofactor
expansion along row 0, `Σ_c get(0,c) * cofactor(0,c)`, where
`cofactor(i,j) = minor(i,j) * (-1)^(i+j)` and `minor(i,j)` is the
determinant of `submatrix(i,j)`; the order-1 base case returns the scalar
itself; consequently the determinant of `[[a,b],[c,d]]` is `ad - bc`. -/
theorem C5_determinant_cofactor_expansion :
    (∀ x : ℝ, detScalar x = x) ∧
    (∀ (m : Matrix2x2f) (i j : ℕ),
      m.minor i j = detScalar (m.submatrix i j) ∧
      m.cofactor i j = m.minor i j * (-1 : ℝ) ^ (i + j)) ∧
    (∀ (m : Matrix3x3f) (i j : ℕ),
      m.minor i j = (m.submatrix i j).determinant ∧
      m.cofactor i j = m.minor i j * (-1 : ℝ) ^ (i + j)) ∧
    (∀ (m : Matrix4x4f) (i j : ℕ),
      m.minor i j = (m.submatrix i j).determinant ∧
      m.cofactor i j = m.minor i j * (-1 : ℝ) ^ (i + j)) ∧
    (∀ m : Matrix2x2f, m.determinant = ∑ c ∈ Finset.range 2, m.get 0 c * m.cofactor 0 c) ∧
    (∀ m : Matrix3x3f, m.determinant = ∑ c ∈ Finset.range 3, m.get 0 c * m.cofactor 0 c) ∧
    (∀ m : Matrix4x4f, m.determinant = ∑ c ∈ Finset.range 4, m.get 0 c * m.cofactor 0 c) ∧
    (∀ a b c d : ℝ, (Matrix2x2f.mk [a, b, c, d]).determinant = a * d - b * c) := by
  refine ⟨fun _ => rfl,
          fun m i j => ⟨rfl, by rw [Matrix2x2f.cofactor, cofactorSign_eq]⟩,
          fun m i j => ⟨rfl, by rw [Matrix3x3f.cofactor, cofactorSign_eq]⟩,
          fun m i j => ⟨rfl, by rw [Matrix4x4f.cofactor, cofactorSign_eq]⟩,
          fun m => ?_, fun m => ?_, fun m => ?_, fun a b c d => ?_⟩
  · simp [Matrix2x2f.determinant, List.range_succ, Finset.sum_range_succ]
  · simp [Matrix3x3f.determinant, List.range_succ, Finset.sum_range_succ]
    ring
  · simp [Matrix4x4f.determinant, List.range_succ, Finset.sum_range_succ]
    ring
  · simp [Matrix2x2f.determinant, Matrix2x2f.cofactor, Matrix2x2f.minor, detScalar,
      Matrix2x2f.submatrix, Matrix2x2f.submatrixVals, Matrix2x2f.get, cofactorSign,
      List.range_succ, List.getD]
    ring

/-- Claim C8, counterexample: normalizing the zero vector does return a
NaN component (the `x` component is `0.0 / 0.0 = NaN`), so no defined
error is surfaced. -/
theorem C8_normalize_zero_is_nan :
    ((Vector4F.normalize ⟨.fin 0, .fin 0, .fin 0, .fin 0⟩).x).isNan = true := by
  have hmag : (Vector4F.magnitude ⟨.fin 0, .fin 0, .fin 0, .fin 0⟩) = .fin 0 := by
    simp [Vector4F.magnitude, FR.mul, FR.add, FR.sqrt, Real.sqrt_zero]
  simp [Vector4F.normalize, hmag, FR.div, FR.isNan]

/-- Claim C8, amended: `normalize` has no zero-magnitude guard; on the
zero vector every component is `0.0 / 0.0 = NaN`, silently propagated
(the caller must guard, as §4.1 states). -/
theorem C8_normalize_zero_propagates_nan :
    Vector4F.normalize ⟨.fin 0, .fin 0, .fin 0, .fin 0⟩ = ⟨.nan, .nan, .nan, .nan⟩ := by
  have hmag : (Vector4F.magnitude ⟨.fin 0, .fin 0, .fin 0, .fin 0⟩) = .fin 0 := by
    simp [Vector4F.magnitude, FR.mul, FR.add, FR.sqrt, Real.sqrt_zero]
  simp [Vector4F.normalize, hmag, FR.div]

/-- A NaN value is the `nan` constructor. -/
theorem FR.eq_nan_of_isNan {a : FR} (h : a.isNan = true) : a = .nan := by
  cases a <;> simp [FR.isNan] at h ⊢

/-- `partial_cmp` with NaN on the right is `None`. -/
theorem FR.pcmp_nan_right (a : FR) : FR.pcmp a .nan = none := by
  cases a <;> rfl

/-- `partial_cmp` with NaN on the left is `None`. -/
theorem FR.pcmp_nan_left (b : FR) : FR.pcmp .nan b = none := by
  cases b <;> rfl

/-- `partial_cmp` succeeds on two non-NaN values. -/
theorem FR.pcmp_some (a b : FR) (ha : a.isNan = false) (hb : b.isNan = false) :
    ∃ o, FR.pcmp a b = some o := by
  cases a <;> cases b <;>
    first
      | exact ⟨_, rfl⟩
      | simp [FR.isNan] at ha hb

/-- The fallible ordered insertion grows the length by one when it
succeeds. -/
theorem insertP_length {α : Type} (cmp : α → α → Option Ordering) (a : α) :
    ∀ l u, insertP cmp a l = some u → u.length = l.length + 1 := by
  intro l
  induction l with
  | nil => intro u h; rw [insertP] at h; cases h; rfl
  | cons b l ih =>
    intro u h
    cases hc : cmp a b with
    | none => simp only [insertP, hc, Option.none_bind] at h; cases h
    | some o =>
      simp only [insertP, hc, Option.some_bind] at h
      by_cases hgt : o = Ordering.gt
      · rw [if_pos hgt] at h
        rcases Option.map_eq_some'.mp h with ⟨u', hu', rfl⟩
        simp [ih u' hu']
      · rw [if_neg hgt] at h
        cases h
        simp
 
/-- The fallible sort preserves the length when it succeeds. -/
theorem sortP_length {α : Type} (cmp : α → α → Option Ordering) :
    ∀ l s, sortP cmp l = some s → s.length = l.length := by
  intro l
  induction l with
  | nil => intro s h; rw [sortP] at h; cases h; rfl
  | cons a l ih =>
    intro s h
    rw [sortP] at h
    rcases Option.bind_eq_some.mp h with ⟨s', hs', hins⟩
    rw [insertP_length cmp a s' s hins, ih s' hs', List.length_cons]

/-- Inserting a NaN-keyed intersection into a nonempty list panics. -/
theorem insertP_nan_head (a b : IntersectionF) (l : List IntersectionF)
    (ha : a.t.isNan = true) :
    insertP (fun u v => FR.pcmp u.t v.t) a (b :: l) = none := by
  simp only [insertP, FR.eq_nan_of_isNan ha, FR.pcmp_nan_left, Option.none_bind]

/-- The fallible ordered insertion succeeds on NaN-free inputs, producing
a list whose members come from the input. -/
theorem insertP_some_of_no_nan (a : IntersectionF) :
    ∀ l : List IntersectionF, a.t.isNan = false → (∀ x ∈ l, x.t.isNan = false) →
      ∃ u, insertP (fun u v => FR.pcmp u.t v.t) a l = some u ∧
        ∀ y ∈ u, y = a ∨ y ∈ l := by
  intro l
  induction l with
  | nil => exact fun _ _ => ⟨[a], rfl, by simp⟩
  | cons b l ih =>
    intro ha hl
    rcases FR.pcmp_some a.t b.t ha (hl b (by simp)) with ⟨o, ho⟩
    by_cases hgt : o = Ordering.gt
    · rcases ih ha (fun x hx => hl x (by simp [hx])) with ⟨u', hu', hmem⟩
      refine ⟨b :: u', ?_, ?_⟩
      · simp only [insertP, ho, Option.some_bind, if_pos hgt, hu', Option.map_some']
      · intro y hy
        rw [List.mem_cons] at hy
        rcases hy with rfl | hy
        · simp
        · rcases hmem y hy with h | h
          · exact Or.inl h
          · exact Or.inr (by simp [h])
    · refine ⟨a :: b :: l, ?_, ?_⟩
      · simp only [insertP, ho, Option.some_bind, if_neg hgt]
      · intro y hy
        rw [List.mem_cons] at hy
        rcases hy with rfl | hy
        · exact Or.inl rfl
        · exact Or.inr hy

/-- The fallible sort succeeds on NaN-free inputs, producing a list whose
members come from the input. -/
theorem sortP_some_of_no_nan :
    ∀ l : List IntersectionF, (∀ x ∈ l, x.t.isNan = false) →
      ∃ s, IntersectionsF.new l = some s ∧ ∀ y ∈ s, y ∈ l := by
  intro l
  induction l with
  | nil => exact fun _ => ⟨[], rfl, by simp⟩
  | cons a rest ih =>
    intro hl
    rcases ih (fun x hx => hl x (by simp [hx])) with ⟨s', hs', hmem'⟩
    have hnonan : ∀ x ∈ s', x.t.isNan = false := fun x hx =>
      hl x (by simp [hmem' x hx])
    rcases insertP_some_of_no_nan a s' (hl a (by simp)) hnonan with ⟨u, hu, humem⟩
    refine ⟨u, ?_, ?_⟩
    · rw [IntersectionsF.new] at hs' ⊢
      rw [sortP, hs', Option.some_bind, hu]
    · intro y hy
      rcases humem y hy with h | h
      · simp [h]
      · simp [hmem' y h]

/-- Claim C10, counterexample: a singleton list whose only `t` is NaN is
sorted without any comparison (Rust's `sort_by` returns early below
length 2), so construction succeeds rather than panicking. -/
theorem C10_singleton_nan_no_panic :
    IntersectionsF.new [⟨.nan, Sphere.default⟩] = some [⟨.nan, Sphere.default⟩] ∧
    (FR.nan).isNan = true :=
  ⟨rfl, rfl⟩

/-- Claim C10, amended: constructing an `Intersections` collection panics
whenever the input list has at least two entries and some entry has a NaN
`t` (the sort then performs a comparison involving the NaN, and
`partial_cmp(..).unwrap()` aborts); a list of length at most one performs
no comparison and always succeeds, and a list whose `t`-values are all
non-NaN always succeeds. -/
theorem C10_new_nan_panics :
    (∀ l : List IntersectionF, 2 ≤ l.length → (∃ x ∈ l, x.t.isNan = true) →
      IntersectionsF.new l = none) ∧
    (∀ x : IntersectionF, IntersectionsF.new [x] = some [x]) ∧
    (∀ l : List IntersectionF, (∀ x ∈ l, x.t.isNan = false) →
      ∃ s, IntersectionsF.new l = some s) := by
  refine ⟨?_, fun x => rfl, ?_⟩
  · intro l
    induction l with
    | nil => intro h; exact absurd h (by simp)
    | cons a rest ih =>
      intro hlen hnan
      have hrest : rest ≠ [] := by
        intro h
        rw [h] at hlen
        exact absurd hlen (by simp)
      rw [IntersectionsF.new, sortP]
      rcases hsort : sortP (fun u v => FR.pcmp u.t v.t) rest with _ | s'
      · rw [hsort, Option.none_bind]
      · rw [hsort, Option.some_bind]
        have hs' : s' ≠ [] := by
          intro h
          have hlen0 := sortP_length _ rest s' hsort
          rw [h] at hlen0
          exact hrest (List.length_eq_zero.mp hlen0.symm)
        rcases hnan with ⟨x, hx, hxnan⟩
        rw [List.mem_cons] at hx
        rcases hx with rfl | hx
        · rcases s' with _ | ⟨b, s''⟩
          · exact absurd rfl hs'
          · exact insertP_nan_head x b s'' hxnan
        · rcases rest with _ | ⟨b, rest'⟩
          · exact absurd rfl hrest
          · rcases rest' with _ | ⟨b2, rest''⟩
            · rcases List.mem_singleton.mp hx with rfl
              have hone : sortP (fun u v => FR.pcmp u.t v.t) [x] = some [x] := rfl
              rw [hone] at hsort
              cases hsort
              simp only [insertP, FR.eq_nan_of_isNan hxnan, FR.pcmp_nan_right,
                Option.none_bind]
            · have hih := ih (by simp) ⟨x, hx, hxnan⟩
              rw [IntersectionsF.new, hsort] at hih
              exact absurd hih (by simp)
  · intro l hl
    rcases sortP_some_of_no_nan l hl with ⟨s, hs, _⟩
    exact ⟨s, hs⟩

noncomputable instance : IsTotal Intersection (fun a b => a.t ≤ b.t) :=
  ⟨fun a b => le_total a.t b.t⟩

noncomputable instance : IsTrans Intersection (fun a b => a.t ≤ b.t) :=
  ⟨fun _ _ _ h1 h2 => le_trans h1 h2⟩

/-- The constructor's sort produces a list sorted ascending by `t`. -/
theorem sorted_new (l : List Intersection) :
    (Intersections.new l).Sorted fun a b => a.t ≤ b.t := by
  rw [Intersections.new, sort_intersections]
  exact List.sorted_insertionSort _ l

/-- The constructor's sort is a permutation of its input. -/
theorem new_perm (l : List Intersection) : List.Perm (Intersections.new l) l := by
  rw [Intersections.new, sort_intersections]
  exact List.perm_insertionSort _ l

/-- On a sorted collection, `hit` returns an entry that is nonnegative, a
member, and minimal among the nonnegative entries. -/
theorem hit_of_sorted :
    ∀ xs : List Intersection, (xs.Sorted fun a b => a.t ≤ b.t) →
      ∀ i, Intersections.hit xs = some i →
        0 ≤ i.t ∧ i ∈ xs ∧ ∀ x ∈ xs, 0 ≤ x.t → i.t ≤ x.t := by
  intro xs
  induction xs with
  | nil => intro _ i h; rw [Intersections.hit] at h; cases h
  | cons a xs ih =>
    intro hsorted i h
    rw [Intersections.hit] at h
    by_cases ha : 0 ≤ a.t
    · rw [List.find?_cons_of_pos _ (by simpa using ha)] at h
      cases h
      refine ⟨ha, by simp, ?_⟩
      intro x hx _
      rw [List.mem_cons] at hx
      rcases hx with rfl | hx
      · exact le_refl _
      · exact List.rel_of_sorted_cons hsorted x hx
    · rw [List.find?_cons_of_neg _ (by simpa using ha)] at h
      rcases ih hsorted.of_cons i h with ⟨h0, hmem, hmin⟩
      refine ⟨h0, by simp [hmem], ?_⟩
      intro x hx hx0
      rw [List.mem_cons] at hx
      rcases hx with rfl | hx
      · exact absurd hx0 ha
      · exact hmin x hx hx0

/-- Claim C10, witness: the amended panic clause applied to a two-element
list containing a NaN, and the success clause applied to a NaN-free
list. -/
theorem C10_new_nan_panics_witness :
    IntersectionsF.new [⟨.fin 1, Sphere.default⟩, ⟨.nan, Sphere.default⟩] = none ∧
    ∃ s, IntersectionsF.new [⟨.fin 1, Sphere.default⟩, ⟨.fin 0, Sphere.default⟩] = some s :=
  ⟨C10_new_nan_panics.1 _ (by simp) ⟨⟨.nan, Sphere.default⟩, by simp, rfl⟩,
   C10_new_nan_panics.2.2 _ (by
    intro x hx
    rw [List.mem_cons, List.mem_singleton] at hx
    rcases hx with rfl | rfl <;> rfl)⟩

/-- Claim C3: `hit()` returns the entry with the smallest `t` satisfying
`t ≥ 0` (none when every entry is negative); over the t-list
`[5, 7, -3, 2]` it returns the `t = 2` entry, and over an all-negative
list it returns none. -/
theorem C3_hit_smallest_nonneg :
    (∀ l : List Intersection, (∀ x ∈ l, x.t < 0) →
      Intersections.hit (Intersections.new l) = none) ∧
    (∀ (l : List Intersection) (i : Intersection),
      Intersections.hit (Intersections.new l) = some i →
        0 ≤ i.t ∧ i ∈ l ∧ ∀ x ∈ l, 0 ≤ x.t → i.t ≤ x.t) ∧
    (∀ l : List Intersection, (∃ x ∈ l, 0 ≤ x.t) →
      (Intersections.hit (Intersections.new l)).isSome = true) ∧
    (Intersections.hit (Intersections.new
        [⟨5, Sphere.default⟩, ⟨7, Sphere.default⟩,
         ⟨-3, Sphere.default⟩, ⟨2, Sphere.default⟩]) =
      some ⟨2, Sphere.default⟩) ∧
    (Intersections.hit (Intersections.new
        [⟨-2, Sphere.default⟩, ⟨-1, Sphere.default⟩]) = none) := by
  refine ⟨?_, ?_, ?_, ?_, ?_⟩
  · intro l hneg
    rw [Intersections.hit, List.find?_eq_none]
    intro x hx
    have hxl : x ∈ l := (new_perm l).mem_iff.mp hx
    simpa using not_le.mpr (hneg x hxl)
  · intro l i h
    rcases hit_of_sorted (Intersections.new l) (sorted_new l) i h with ⟨h0, hmem, hmin⟩
    exact ⟨h0, (new_perm l).mem_iff.mp hmem,
      fun x hx hx0 => hmin x ((new_perm l).mem_iff.mpr hx) hx0⟩
  · intro l ⟨x, hx, hx0⟩
    rw [Intersections.hit, List.find?_isSome]
    exact ⟨x, (new_perm l).mem_iff.mpr hx, by simpa using hx0⟩
  · have hsorted : Intersections.new
        [⟨5, Sphere.default⟩, ⟨7, Sphere.default⟩,
         ⟨-3, Sphere.default⟩, ⟨2, Sphere.default⟩] =
        [⟨-3, Sphere.default⟩, ⟨2, Sphere.default⟩,
         ⟨5, Sphere.default⟩, ⟨7, Sphere.default⟩] := by
      rw [Intersections.new, sort_intersections]
      norm_num [List.insertionSort, List.orderedInsert]
    rw [hsorted, Intersections.hit]
    norm_num [List.find?]
  · have hsorted : Intersections.new [⟨-2, Sphere.default⟩, ⟨-1, Sphere.default⟩] =
        [⟨-2, Sphere.default⟩, ⟨-1, Sphere.default⟩] := by
      rw [Intersections.new, sort_intersections]
      norm_num [List.insertionSort, List.orderedInsert]
    rw [hsorted, Intersections.hit]
    norm_num [List.find?]

/-- Claim C3, witness: the general clauses applied to the literal t-list
`[5, 7, -3, 2]`. -/
theorem C3_hit_smallest_nonneg_witness :
    0 ≤ (Intersection.mk 2 Sphere.default).t ∧
    Intersection.mk 2 Sphere.default ∈
      [⟨5, Sphere.default⟩, ⟨7, Sphere.default⟩,
       ⟨-3, Sphere.default⟩, ⟨2, Sphere.default⟩] ∧
    ∀ x ∈ [Intersection.mk 5 Sphere.default, ⟨7, Sphere.default⟩,
       ⟨-3, Sphere.default⟩, ⟨2, Sphere.default⟩], 0 ≤ x.t →
      (Intersection.mk 2 Sphere.default).t ≤ x.t :=
  C3_hit_smallest_nonneg.2.1 _ _ C3_hit_smallest_nonneg.2.2.2.1

/-- Unfolding `intersect_sphere` when the transform inverts: with the
object-space ray, `a`, `b`, `c` and the discriminant named by equations,
the result is the guarded two-root construction. -/
theorem intersect_sphere_eval (r : Ray) (s : Sphere) (minv : Matrix4x4f)
    (hinv : s.transform.inverse = some minv)
    (tr : Ray) (O : Vector3f) (a b c disc : ℝ)
    (h1 : tr = r.transform minv)
    (h2 : O = tr.origin.sub (Point3f.new 0 0 0))
    (h3 : a = tr.direction.dot tr.direction)
    (h4 : b = 2 * tr.direction.dot O)
    (h5 : c = O.dot O - 1)
    (h6 : disc = b * b - 4 * a * c) :
    r.intersect_sphere s =
      if disc < 0 then some Intersections.new_empty
      else some (Intersections.new
        [⟨(-b - Real.sqrt disc) / (2 * a), s⟩,
         ⟨(-b + Real.sqrt disc) / (2 * a), s⟩]) := by
  subst h1 h2 h3 h4 h5 h6
  rw [Ray.intersect_sphere, hinv]

/-- A singular transform makes `intersect_sphere` panic (`none`). -/
theorem intersect_sphere_none (r : Ray) (s : Sphere)
    (hinv : s.transform.inverse = none) : r.intersect_sphere s = none := by
  rw [Ray.intersect_sphere, hinv]

/-- The identity matrix as an explicit flat list. -/
theorem identity_vals :
    Matrix4x4f.identity = ⟨[1, 0, 0, 0, 0, 1, 0, 0, 0, 0, 1, 0, 0, 0, 0, 1]⟩ := by
  rw [Matrix4x4f.identity]
  norm_num [List.range_succ]

/-- The identity matrix fixes every homogeneous tuple. -/
theorem identity_mulVec4 (v : Vector4f) : Matrix4x4f.identity.mulVec4 v = v := by
  cases v with
  | mk x y z w =>
    rw [identity_vals, Matrix4x4f.mulVec4]
    simp [Matrix4x4f.get, List.getD]

/-- The identity matrix fixes every ray. -/
theorem transform_identity (r : Ray) : r.transform Matrix4x4f.identity = r := by
  cases r with
  | mk o d =>
    cases o; cases d
    simp [Ray.transform, Matrix4x4f.mulPoint, Matrix4x4f.mulVec3, identity_mulVec4]

theorem sqrt_four : Real.sqrt 4 = 2 := by
  rw [show (4 : ℝ) = 2 ^ 2 by norm_num, Real.sqrt_sq (by norm_num)]

set_option maxHeartbeats 1000000 in
/-- The modelled inverse maps the identity to itself. -/
theorem inverse_identity : Matrix4x4f.identity.inverse = some Matrix4x4f.identity := by
  rw [Matrix4x4f.inverse]
  norm_num [Matrix4x4f.identity, Matrix4x4f.determinant, Matrix4x4f.cofactor,
    Matrix4x4f.minor, Matrix4x4f.submatrix, Matrix4x4f.submatrixVals, Matrix4x4f.get,
    Matrix3x3f.determinant, Matrix3x3f.cofactor, Matrix3x3f.minor, Matrix3x3f.submatrix,
    Matrix3x3f.submatrixVals, Matrix3x3f.get, Matrix2x2f.determinant, Matrix2x2f.cofactor,
    Matrix2x2f.minor, Matrix2x2f.submatrix, Matrix2x2f.submatrixVals, Matrix2x2f.get,
    detScalar, cofactorSign, List.range_succ, List.getD]

/-- The default sphere's transform inverts to the identity. -/
theorem default_sphere_inverse :
    Sphere.default.transform.inverse = some Matrix4x4f.identity := by
  rw [show Sphere.default.transform = Matrix4x4f.identity from rfl, inverse_identity]

/-- The dot product of a vector with itself is nonnegative. -/
theorem dot_self_nonneg (v : Vector3f) : 0 ≤ v.dot v := by
  cases v with
  | mk u =>
    cases u with
    | mk x y z w =>
      rw [Vector3f.dot, Vector4f.dot]
      nlinarith [mul_self_nonneg x, mul_self_nonneg y, mul_self_nonneg z, mul_self_nonneg w]

/-- Constructing a collection from an already-ordered pair keeps it. -/
theorem new_pair_of_le (x y : Intersection) (h : x.t ≤ y.t) :
    Intersections.new [x, y] = [x, y] := by
  rw [Intersections.new, sort_intersections]
  simp only [List.insertionSort, List.orderedInsert]
  rw [if_pos h]

/-- Ray `(0,0,-5) -> (0,0,1)` against the default unit sphere:
`t`-values 4 and 6. -/
theorem intersect_unit_m5 :
    (Ray.mk (Point3f.new 0 0 (-5)) (Vector3f.new 0 0 1)).intersect_sphere Sphere.default
      = some [⟨4, Sphere.default⟩, ⟨6, Sphere.default⟩] := by
  rw [intersect_sphere_eval _ _ _ default_sphere_inverse _ _ _ _ _ _ rfl rfl rfl rfl rfl rfl,
    transform_identity]
  norm_num [Point3f.new, Vector3f.new, Point3f.sub, Vector4f.sub, Vector3f.dot,
    Vector4f.dot, sqrt_four, Intersections.new, sort_intersections,
    List.insertionSort, List.orderedInsert]

/-- Ray from the origin `(0,0,0) -> (0,0,1)` against the default unit
sphere: `t`-values -1 and 1. -/
theorem intersect_unit_origin :
    (Ray.mk (Point3f.new 0 0 0) (Vector3f.new 0 0 1)).intersect_sphere Sphere.default
      = some [⟨-1, Sphere.default⟩, ⟨1, Sphere.default⟩] := by
  rw [intersect_sphere_eval _ _ _ default_sphere_inverse _ _ _ _ _ _ rfl rfl rfl rfl rfl rfl,
    transform_identity]
  norm_num [Point3f.new, Vector3f.new, Point3f.sub, Vector4f.sub, Vector3f.dot,
    Vector4f.dot, sqrt_four, Intersections.new, sort_intersections,
    List.insertionSort, List.orderedInsert]

/-- Ray `(0,2,-5) -> (0,0,1)` misses the default unit sphere. -/
theorem intersect_unit_miss :
    (Ray.mk (Point3f.new 0 2 (-5)) (Vector3f.new 0 0 1)).intersect_sphere Sphere.default
      = some [] := by
  rw [intersect_sphere_eval _ _ _ default_sphere_inverse _ _ _ _ _ _ rfl rfl rfl rfl rfl rfl,
    transform_identity]
  norm_num [Point3f.new, Vector3f.new, Point3f.sub, Vector4f.sub, Vector3f.dot,
    Vector4f.dot, Intersections.new_empty]

/-- Claim C7: every collection built by the constructor is sorted
ascending by `t`, and so is every collection produced by ray-sphere
intersection. -/
theorem C7_intersections_sorted :
    (∀ l : List Intersection, (Intersections.new l).Sorted fun a b => a.t ≤ b.t) ∧
    (∀ (r : Ray) (s : Sphere) (xs : List Intersection),
      r.intersect_sphere s = some xs → xs.Sorted fun a b => a.t ≤ b.t) := by
  refine ⟨sorted_new, ?_⟩
  intro r s xs h
  cases hinv : s.transform.inverse with
  | none => rw [intersect_sphere_none r s hinv] at h; cases h
  | some minv =>
    rw [intersect_sphere_eval r s minv hinv _ _ _ _ _ _ rfl rfl rfl rfl rfl rfl] at h
    split_ifs at h with hd
    · simp only [Option.some.injEq] at h
      subst h
      exact List.sorted_nil
    · simp only [Option.some.injEq] at h
      subst h
      exact sorted_new _

/-- Claim C7, witness: the sortedness of an intersection result at a
concrete ray and sphere. -/
theorem C7_intersections_sorted_witness :
    ([⟨4, Sphere.default⟩, ⟨6, Sphere.default⟩] : List Intersection).Sorted
      (fun a b => a.t ≤ b.t) :=
  C7_intersections_sorted.2 _ _ _ intersect_unit_m5

/-- Claim C1: `intersect_sphere` transforms the ray by the inverse of the
sphere's transform, forms `a = D·D`, `b = 2 D·O`, `c = O·O - 1` and the
discriminant `b² - 4ac` from the object-space origin `O` and direction
`D`; a negative discriminant gives the empty list, otherwise exactly the
two ordered roots, each referencing the sphere; the three literal rays
against the default unit sphere give `[4, 6]`, `[-1, 1]` and empty. -/
theorem C1_intersect_sphere :
    (∀ (r : Ray) (s : Sphere) (minv : Matrix4x4f),
      s.transform.inverse = some minv →
      ∀ (tr : Ray) (O : Vector3f) (a b c disc : ℝ),
        tr = r.transform minv →
        O = tr.origin.sub (Point3f.new 0 0 0) →
        a = tr.direction.dot tr.direction →
        b = 2 * tr.direction.dot O →
        c = O.dot O - 1 →
        disc = b * b - 4 * a * c →
        (disc < 0 → r.intersect_sphere s = some []) ∧
        (0 ≤ disc →
          r.intersect_sphere s =
            some [⟨(-b - Real.sqrt disc) / (2 * a), s⟩,
                  ⟨(-b + Real.sqrt disc) / (2 * a), s⟩] ∧
          (-b - Real.sqrt disc) / (2 * a) ≤ (-b + Real.sqrt disc) / (2 * a))) ∧
    ((Ray.mk (Point3f.new 0 0 (-5)) (Vector3f.new 0 0 1)).intersect_sphere Sphere.default
      = some [⟨4, Sphere.default⟩, ⟨6, Sphere.default⟩]) ∧
    ((Ray.mk (Point3f.new 0 0 0) (Vector3f.new 0 0 1)).intersect_sphere Sphere.default
      = some [⟨-1, Sphere.default⟩, ⟨1, Sphere.default⟩]) ∧
    ((Ray.mk (Point3f.new 0 2 (-5)) (Vector3f.new 0 0 1)).intersect_sphere Sphere.default
      = some []) := by
  refine ⟨?_, intersect_unit_m5, intersect_unit_origin, intersect_unit_miss⟩
  intro r s minv hinv tr O a b c disc h1 h2 h3 h4 h5 h6
  have heval := intersect_sphere_eval r s minv hinv tr O a b c disc h1 h2 h3 h4 h5 h6
  have ha : 0 ≤ a := h3 ▸ dot_self_nonneg tr.direction
  refine ⟨fun hd => ?_, fun hd => ?_⟩
  · rw [heval, if_pos hd]
    rfl
  · have ht12 : (-b - Real.sqrt disc) / (2 * a) ≤ (-b + Real.sqrt disc) / (2 * a) := by
      rcases eq_or_lt_of_le ha with heq | hpos
      · rw [← heq]
        norm_num
      · exact (div_le_div_iff_of_pos_right (by linarith)).mpr
          (by linarith [Real.sqrt_nonneg disc])
    refine ⟨?_, ht12⟩
    rw [heval, if_neg (not_lt.mpr hd), new_pair_of_le _ _ ht12]

/-- Claim C1, witness: the general clause instantiated at the ray
`(0,0,-5) -> (0,0,1)` and the default sphere, where `a = 1`, `b = -10`,
`c = 24` and the discriminant is 4. -/
theorem C1_intersect_sphere_witness :
    (Ray.mk (Point3f.new 0 0 (-5)) (Vector3f.new 0 0 1)).intersect_sphere Sphere.default
      = some [⟨(-(-10) - Real.sqrt 4) / (2 * 1), Sphere.default⟩,
              ⟨(-(-10) + Real.sqrt 4) / (2 * 1), Sphere.default⟩] ∧
    (-(-10) - Real.sqrt 4) / (2 * 1) ≤ (-(-10) + Real.sqrt 4) / (2 * 1) :=
  (C1_intersect_sphere.1 (Ray.mk (Point3f.new 0 0 (-5)) (Vector3f.new 0 0 1))
    Sphere.default Matrix4x4f.identity default_sphere_inverse
    (Ray.mk (Point3f.new 0 0 (-5)) (Vector3f.new 0 0 1))
    (Vector3f.new 0 0 (-5)) 1 (-10) 24 4
    (transform_identity _).symm
    (by norm_num [Point3f.new, Vector3f.new, Point3f.sub, Vector4f.sub])
    (by norm_num [Vector3f.new, Vector3f.dot, Vector4f.dot])
    (by norm_num [Vector3f.new, Vector3f.dot, Vector4f.dot])
    (by norm_num [Vector3f.new, Vector3f.dot, Vector4f.dot])
    (by norm_num)).2 (by norm_num)

theorem sqrt_hundred : Real.sqrt 100 = 10 := by
  rw [show (100 : ℝ) = 10 ^ 2 by norm_num, Real.sqrt_sq (by norm_num)]

/-- Claim C2, counterexample: at `lightDotNormal = 0` exactly (light at
`(0,1,0)` grazing the surface, eye at `(0,-1,0)`), the diffuse term is
zero but the specular term still fires, so the result `(1,1,1)` is not
the ambient term `(0.1,0.1,0.1)` alone. -/
theorem C2_lighting_zero_dot_not_ambient_only :
    (((PointLight.mk (Point3f.new 0 1 0) ⟨1, 1, 1⟩).position.sub
        (Point3f.new 0 0 0)).normalize).dot (Vector3f.new 0 0 (-1)) = 0 ∧
    lighting ⟨Material.default, ⟨Point3f.new 0 1 0, ⟨1, 1, 1⟩⟩, Point3f.new 0 0 0,
      Vector3f.new 0 (-1) 0, Vector3f.new 0 0 (-1)⟩ = ⟨1, 1, 1⟩ ∧
    Color.mk (1 : ℝ) 1 1 ≠
      (Material.default.color.hadamard (Color.mk (1 : ℝ) 1 1)).smul
        Material.default.ambient := by
  refine ⟨?_, ?_, ?_⟩
  · norm_num [PointLight.mk.injEq, Point3f.new, Vector3f.new, Point3f.sub,
      Vector4f.sub, Vector3f.normalize, Vector4f.normalize, Vector4f.magnitude,
      Real.sqrt_one, Vector3f.dot, Vector4f.dot]
  · rw [lighting]
    norm_num [Material.default, Point3f.new, Vector3f.new, Point3f.sub, Vector4f.sub,
      Vector3f.normalize, Vector4f.normalize, Vector4f.magnitude, Real.sqrt_one,
      Vector3f.dot, Vector4f.dot, Vector3f.neg, Vector4f.neg, Vector3f.reflect,
      Vector4f.smul, Real.one_rpow, Color.hadamard, Color.smul, Color.add, Color.BLACK]
  · intro h
    rw [Color.mk.injEq] at h
    have h1 := h.1
    norm_num [Material.default, Color.hadamard, Color.smul] at h1

/-- Claim C2, amended: whenever `lightDotNormal` is strictly negative,
both the diffuse and the specular contribution are black and `lighting`
returns the ambient term alone (at exactly zero the diffuse term
vanishes but the specular term is still governed by the reflection
test); with the default material, point `(0,0,0)`, normal `(0,0,-1)`,
eye `(0,0,-1)` and a white point light at `(0,0,10)` behind the surface,
`lighting` returns `(0.1, 0.1, 0.1)`. -/
theorem C2_lighting_behind_ambient_only :
    (∀ args : LightingArgs,
      (((args.light.position.sub args.point).normalize).dot args.normalv) < 0 →
      lighting args =
        (args.material.color.hadamard args.light.intensity).smul args.material.ambient) ∧
    lighting ⟨Material.default, ⟨Point3f.new 0 0 10, ⟨1, 1, 1⟩⟩, Point3f.new 0 0 0,
      Vector3f.new 0 0 (-1), Vector3f.new 0 0 (-1)⟩ = ⟨1 / 10, 1 / 10, 1 / 10⟩ := by
  constructor
  · intro args h
    rw [lighting]
    simp only [if_pos h]
    simp [Color.add, Color.BLACK]
  · rw [lighting]
    norm_num [Material.default, Point3f.new, Vector3f.new, Point3f.sub, Vector4f.sub,
      Vector3f.normalize, Vector4f.normalize, Vector4f.magnitude, sqrt_hundred,
      Vector3f.dot, Vector4f.dot, Color.hadamard, Color.smul, Color.add, Color.BLACK]

/-- Claim C2, witness: the amended dark-side clause applied at the
literal light-behind-the-surface configuration. -/
theorem C2_lighting_behind_ambient_only_witness :
    lighting ⟨Material.default, ⟨Point3f.new 0 0 10, ⟨1, 1, 1⟩⟩, Point3f.new 0 0 0,
        Vector3f.new 0 0 (-1), Vector3f.new 0 0 (-1)⟩ =
      ((⟨Material.default, ⟨Point3f.new 0 0 10, ⟨1, 1, 1⟩⟩, Point3f.new 0 0 0,
        Vector3f.new 0 0 (-1), Vector3f.new 0 0 (-1)⟩ :
          LightingArgs).material.color.hadamard ⟨1, 1, 1⟩).smul Material.default.ambient :=
  C2_lighting_behind_ambient_only.1 _ (by
    norm_num [Point3f.new, Vector3f.new, Point3f.sub, Vector4f.sub,
      Vector3f.normalize, Vector4f.normalize, Vector4f.magnitude, sqrt_hundred,
      Vector3f.dot, Vector4f.dot])

/-- The channel conversion lands in `[0, 255]`. -/
theorem to_int_range (v : ℚ) : 0 ≤ to_int v ∧ to_int v ≤ 255 := by
  rw [to_int]
  split_ifs with h0 h1
  · exact ⟨le_refl 0, by norm_num⟩
  · exact ⟨by norm_num, le_refl 255⟩
  · constructor
    · exact Int.floor_nonneg.mpr (by nlinarith [not_lt.mp h0])
    · calc ⌊v * 255⌋ ≤ ⌊(255 : ℚ)⌋ := Int.floor_le_floor (by nlinarith [not_lt.mp h1])
      _ = 255 := by norm_num

/-- The decimal rendering of an integer in `[0, 255]` takes at most three
characters. -/
theorem int_repr_length_le (v : ℤ) (h0 : 0 ≤ v) (h1 : v ≤ 255) :
    (Int.repr v).length ≤ 3 := by
  obtain ⟨m, rfl⟩ := Int.eq_ofNat_of_zero_le h0
  have hm : m < 10 ^ 3 := by
    have : (m : ℤ) < 1000 := lt_of_le_of_lt h1 (by norm_num)
    exact_mod_cast this
  have hrepr : ((m : ℤ)).repr = Nat.repr m := rfl
  rw [hrepr]
  exact Nat.repr_length m 3 (by norm_num) hm

/-- One wrapping step keeps the running line and all emitted lines within
70 characters. -/
theorem wrapStep_le (st : String × List String) (v : ℤ)
    (hv : (Int.repr v).length ≤ 3)
    (h1 : st.1.length ≤ 70) (h2 : ∀ l ∈ st.2, l.length ≤ 70) :
    (wrapStep st v).1.length ≤ 70 ∧ ∀ l ∈ (wrapStep st v).2, l.length ≤ 70 := by
  simp only [wrapStep]
  split_ifs with he hle
  · refine ⟨?_, h2⟩
    rw [he, String.length_append]
    have h0 : ("" : String).length = 0 := rfl
    omega
  · refine ⟨?_, h2⟩
    rw [String.length_append]
    exact hle
  · constructor
    · show (Int.repr v).length ≤ 70
      omega
    · show ∀ l ∈ st.2 ++ [st.1], l.length ≤ 70
      intro l hl
      rw [List.mem_append, List.mem_singleton] at hl
      rcases hl with hl | rfl
      · exact h2 l hl
      · exact h1

/-- The wrapping fold keeps the running line and all emitted lines within
70 characters. -/
theorem wrapFold_le :
    ∀ (vals : List ℤ) (st : String × List String),
      (∀ v ∈ vals, (Int.repr v).length ≤ 3) →
      st.1.length ≤ 70 → (∀ l ∈ st.2, l.length ≤ 70) →
      (vals.foldl wrapStep st).1.length ≤ 70 ∧
        ∀ l ∈ (vals.foldl wrapStep st).2, l.length ≤ 70 := by
  intro vals
  induction vals with
  | nil => exact fun st _ h1 h2 => ⟨h1, h2⟩
  | cons v vals ih =>
    intro st hv h1 h2
    rw [List.foldl_cons]
    rcases wrapStep_le st v (hv v (by simp)) h1 h2 with ⟨g1, g2⟩
    exact ih _ (fun u hu => hv u (by simp [hu])) g1 g2

/-- Every line emitted for a row of at-most-3-character integers is at
most 70 characters long. -/
theorem wrapRow_le (vals : List ℤ) (hv : ∀ v ∈ vals, (Int.repr v).length ≤ 3) :
    ∀ line ∈ wrapRow vals, line.length ≤ 70 := by
  intro line hline
  rcases wrapFold_le vals ("", []) hv (by norm_num) (by simp) with ⟨g1, g2⟩
  simp only [wrapRow] at hline
  split_ifs at hline
  · exact g2 line hline
  · rw [List.mem_append, List.mem_singleton] at hline
    rcases hline with hl | rfl
    · exact g2 line hl
    · exact g1

/-- Every integer of a pixel row renders in at most three characters. -/
theorem rowInts_repr_le (c : Canvas) (y : ℕ) :
    ∀ v ∈ rowInts c y, (Int.repr v).length ≤ 3 := by
  intro v hv
  simp only [rowInts, List.mem_flatMap, List.mem_cons, List.not_mem_nil, or_false] at hv
  rcases hv with ⟨x, _, rfl | rfl | rfl⟩ <;>
    exact int_repr_length_le _ (to_int_range _).1 (to_int_range _).2

/-- Unfolding the join at a two-element head. -/
theorem joinLines_cons_cons (a b : String) (l : List String) :
    joinLines (a :: b :: l) = a ++ "\n" ++ joinLines (b :: l) := rfl

/-- Joining lines that end with an empty line appends a final newline. -/
theorem joinLines_concat_empty :
    ∀ l : List String, l ≠ [] → joinLines (l ++ [""]) = joinLines l ++ "\n" := by
  intro l
  induction l with
  | nil => exact fun h => absurd rfl h
  | cons a l ih =>
    intro _
    cases l with
    | nil =>
      show joinLines [a, ""] = joinLines [a] ++ "\n"
      rw [joinLines_cons_cons]
      show a ++ "\n" ++ "" = a ++ "\n"
      rw [String.append_empty]
    | cons b l2 =>
      have hstep : joinLines ((a :: b :: l2) ++ [""]) =
          a ++ "\n" ++ joinLines ((b :: l2) ++ [""]) := by
        rw [List.cons_append, List.cons_append, joinLines_cons_cons, ← List.cons_append]
      rw [hstep, ih (by simp), joinLines_cons_cons]
      simp only [String.append_assoc]

/-- Claim C9: for every canvas (with `usize`-sized dimensions), the
encoded text begins with the 3-line header `P3`, `<w> <h>`, `255`, every
output line is at most 70 characters, and the output ends with a
newline; for the 5x3 canvas the output starts with exactly
`"P3\n5 3\n255\n"`. -/
theorem C9_ppm_header_wrap_newline :
    (∀ c : Canvas, c.w < 2 ^ 64 → c.h < 2 ^ 64 →
      (∃ rest : String, canvas_to_ppm c =
        "P3\n" ++ (Nat.repr c.w ++ " " ++ Nat.repr c.h) ++ "\n255\n" ++ rest) ∧
      (∀ line ∈ ppmLines c, line.length ≤ 70) ∧
      (∃ s : String, canvas_to_ppm c = s ++ "\n")) ∧
    canvas_to_ppm (Canvas.new 5 3) = "P3\n5 3\n255\n" ++
      ("0 0 0 0 0 0 0 0 0 0 0 0 0 0 0\n0 0 0 0 0 0 0 0 0 0 0 0 0 0 0\n" ++
       "0 0 0 0 0 0 0 0 0 0 0 0 0 0 0\n") := by
  constructor
  · intro c hw hh
    refine ⟨?_, ?_, ?_⟩
    · rw [canvas_to_ppm, ppmLines]
      simp only [List.cons_append, List.nil_append]
      rcases hpix : ((List.range c.h).flatMap fun y => wrapRow (rowInts c y)) ++ [""] with
        _ | ⟨r0, rtl⟩
      · exact absurd hpix (by simp)
      · rw [joinLines_cons_cons, joinLines_cons_cons, joinLines_cons_cons]
        refine ⟨joinLines (r0 :: rtl), ?_⟩
        rw [show ("P3\n" : String) = "P3" ++ "\n" from rfl,
          show ("\n255\n" : String) = "\n" ++ "255" ++ "\n" from rfl]
        simp only [String.append_assoc]
    · intro line hline
      rw [ppmLines] at hline
      simp only [List.mem_append, List.mem_cons, List.mem_singleton,
        List.not_mem_nil, or_false] at hline
      rcases hline with ((rfl | rfl | rfl) | hpix) | rfl
      · decide
      · rw [String.length_append, String.length_append]
        have hwlen : (Nat.repr c.w).length ≤ 20 :=
          Nat.repr_length c.w 20 (by norm_num) (lt_of_lt_of_le hw (by norm_num))
        have hhlen : (Nat.repr c.h).length ≤ 20 :=
          Nat.repr_length c.h 20 (by norm_num) (lt_of_lt_of_le hh (by norm_num))
        have hsp : (" " : String).length = 1 := rfl
        omega
      · decide
      · rcases List.mem_flatMap.mp hpix with ⟨y, _, hline⟩
        exact wrapRow_le (rowInts c y) (rowInts_repr_le c y) line hline
      · decide
    · rw [canvas_to_ppm]
      have hshape : ppmLines c =
          ("P3" :: (Nat.repr c.w ++ " " ++ Nat.repr c.h) :: "255" ::
            ((List.range c.h).flatMap fun y => wrapRow (rowInts c y))) ++ [""] := by
        rw [ppmLines]
        simp
      rw [hshape, joinLines_concat_empty _ (by simp)]
      exact ⟨_, rfl⟩
  · have hto : to_int 0 = 0 := by
      rw [to_int, if_neg (by norm_num), if_neg (by norm_num)]
      norm_num
    have hpx : ∀ x y, (Canvas.new 5 3).pxAt x y = ⟨0, 0, 0⟩ := by
      intro x y
      have houter : (List.replicate 3 (List.replicate 5 (⟨0, 0, 0⟩ : Color ℚ))).getD y [] =
          if y < 3 then List.replicate 5 ⟨0, 0, 0⟩ else [] := by
        rcases Nat.lt_or_ge y 3 with hy | hy
        · rw [if_pos hy, List.getD_eq_getElem _ _ (by simpa using hy),
            List.getElem_replicate]
        · rw [if_neg (not_lt.mpr hy), List.getD_eq_default _ _ (by simpa using hy)]
      show ((List.replicate 3 (List.replicate 5 (⟨0, 0, 0⟩ : Color ℚ))).getD y []).getD
        x ⟨0, 0, 0⟩ = ⟨0, 0, 0⟩
      rw [houter]
      split_ifs
      · rcases Nat.lt_or_ge x 5 with hx | hx
        · rw [List.getD_eq_getElem _ _ (by simpa using hx), List.getElem_replicate]
        · rw [List.getD_eq_default _ _ (by simpa using hx)]
      · rw [List.getD_nil]
    have hrow : ∀ y, rowInts (Canvas.new 5 3) y =
        [0, 0, 0, 0, 0, 0, 0, 0, 0, 0, 0, 0, 0, 0, 0] := by
      intro y
      have hw5 : (Canvas.new 5 3).w = 5 := rfl
      rw [rowInts, hw5]
      simp [List.range_succ, hpx, hto]
    have hppm : ppmLines (Canvas.new 5 3) =
        ["P3", "5 3", "255",
         "0 0 0 0 0 0 0 0 0 0 0 0 0 0 0", "0 0 0 0 0 0 0 0 0 0 0 0 0 0 0",
         "0 0 0 0 0 0 0 0 0 0 0 0 0 0 0", ""] := by
      have hw5 : (Canvas.new 5 3).w = 5 := rfl
      have hh3 : (Canvas.new 5 3).h = 3 := rfl
      rw [ppmLines, hw5, hh3]
      simp only [List.range_succ, List.range_zero, List.flatMap_cons, List.flatMap_nil,
        List.nil_append, hrow]
      decide
    rw [canvas_to_ppm, hppm]
    decide

/-- Claim C9, witness: the general clauses applied to the 5x3 canvas. -/
theorem C9_ppm_header_wrap_newline_witness :
    (∃ rest : String, canvas_to_ppm (Canvas.new 5 3) =
      "P3\n" ++ (Nat.repr (Canvas.new 5 3).w ++ " " ++ Nat.repr (Canvas.new 5 3).h) ++
        "\n255\n" ++ rest) ∧
    (∀ line ∈ ppmLines (Canvas.new 5 3), line.length ≤ 70) ∧
    (∃ s : String, canvas_to_ppm (Canvas.new 5 3) = s ++ "\n") :=
  C9_ppm_header_wrap_newline.1 (Canvas.new 5 3) (by decide) (by decide)

end RayTracer
